import Mathlib

/-!
Shallow embedding of `src/script.js` (a browser-local language-learning SNS).
The data model and the storage / eviction / tagging / search operations are
translated from the source; JavaScript object mutation becomes explicit state
passing, nullable fields become `Option`, and the `images` object becomes an
insertion-ordered association list (matching `Object.entries` iteration order).
JavaScript string-truthiness (`null` and `""` are falsy) is modelled explicitly
wherever the source relies on it.
-/

namespace LangSns

/-- One language rendition of a Post/Reply: the text-block objects built by the
submit handler (`content`, `language`, `pronunciation`, source lines 351-355).
`pronunciation` is `Option` because the placeholder text written by `deletePost`
(line 702) has no `pronunciation` key. -/
structure TextVariant where
  content : String
  language : String
  pronunciation : Option String
deriving DecidableEq

/-- A Post record, field-for-field from the object literal at source lines 398-410. -/
structure Post where
  id : Nat
  texts : List TextVariant
  tags : List String
  createdAt : Nat
  updatedAt : Nat
  imageId : Option String
  imageRemoved : Bool
  isDeleted : Bool
  liked : Bool
  likedAt : Option Nat
  repostOf : Option Nat
deriving DecidableEq

/-- A Reply record, from the object literal at source lines 371-380.
`imageRemoved` is absent (`none`) on freshly created replies; editing a reply
through the shared edit branch (line 388) adds the key, hence `Option Bool`. -/
structure Reply where
  id : Nat
  postId : Nat
  texts : List TextVariant
  tags : List String
  createdAt : Nat
  updatedAt : Nat
  imageId : Option String
  isDeleted : Bool
  imageRemoved : Option Bool
deriving DecidableEq

/-- The persisted application state `state.data` (source lines 6-12).
`images` is an insertion-ordered association list of id ↦ embedded payload. -/
structure AppState where
  version : Nat
  posts : List Post
  replies : List Reply
  images : List (String × String)
  lastId : Nat
deriving DecidableEq

/-- `STORAGE_LIMIT = 5 * 1024 * 1024` (source line 3). -/
def STORAGE_LIMIT : Nat := 5 * 1024 * 1024

/-- JavaScript truthiness of a nullable string (`null` and `""` are falsy). -/
def jsTruthy : Option String → Bool
  | none => false
  | some s => !s.data.isEmpty

/-- `String.prototype.trim`: strip whitespace from both ends (char-level model
of the JavaScript built-in). -/
def jsTrim (s : String) : String :=
  String.mk (((s.data.dropWhile Char.isWhitespace).reverse.dropWhile Char.isWhitespace).reverse)

/-- `String.prototype.toLowerCase`, restricted to ASCII case mapping (the
claims exercise ASCII content only). -/
def jsToLower (s : String) : String :=
  String.mk (s.data.map Char.toLower)

/-- `imageId || null` (source lines 378 and 404): normalize a falsy id to null. -/
def jsOrNull (o : Option String) : Option String :=
  if jsTruthy o then o else none

/-- Character class of the tag regex `/#([\p{L}\p{N}_-]+)/gu` (source line 57).
ASCII letters/digits/underscore/hyphen are matched exactly; non-ASCII code
points are treated as word characters (approximating `\p{L}\p{N}`, whose full
Unicode tables are out of scope — all claims exercise ASCII content only). -/
def isTagChar (c : Char) : Bool :=
  c.isAlphanum || c == '_' || c == '-' || 127 < c.toNat

/-- Left-to-right scanner computing the successive matches of the tag regex
over one content string (the semantics of the `regex.exec` loop at lines
59-62): a `#` opens a candidate run; a maximal nonempty run of tag characters
is emitted as one match, and scanning resumes at the character that ended the
run (which may itself open the next candidate). `cur = some run` means the
scanner is inside a candidate opened by a `#`. -/
def tagScan : List Char → Option (List Char) → List String
  | [], cur =>
    match cur with
    | some run => if run.isEmpty then [] else [String.mk run]
    | none => []
  | c :: rest, cur =>
    match cur with
    | some run =>
      if isTagChar c then tagScan rest (some (run ++ [c]))
      else
        (if run.isEmpty then [] else [String.mk run]) ++
          tagScan rest (if c == '#' then some [] else none)
    | none =>
      if c == '#' then tagScan rest (some [])
      else tagScan rest none

/-- All matches of `/#([\p{L}\p{N}_-]+)/gu` over one content string. -/
def tagMatches (l : List Char) : List String :=
  tagScan l none

/-- `tagSet.add` for a JavaScript `Set`: insertion-ordered, first occurrence kept. -/
def jsSetAdd (acc : List String) (t : String) : List String :=
  if t ∈ acc then acc else acc ++ [t]

/-- `extractTags(texts)` (source lines 55-65): collect all regex matches over
every `texts[].content` into an insertion-ordered set, returned as an array. -/
def extractTags (texts : List TextVariant) : List String :=
  texts.foldl (fun acc t => (tagMatches t.content.data).foldl jsSetAdd acc) []

/-- Length contribution of one character inside a JSON string literal, as
`JSON.stringify` escapes it: `"` and `\` become two characters, control
characters become `\b \t \n \f \r` (two) or `\uXXXX` (six), all else is one. -/
def escLen (c : Char) : Nat :=
  if c == '"' || c == '\\' then 2
  else if c.toNat < 32 then
    if c.toNat == 8 || c.toNat == 9 || c.toNat == 10 || c.toNat == 12 || c.toNat == 13 then 2
    else 6
  else 1

/-- Serialized length of a JSON string literal: two quotes plus escaped chars. -/
def jsonStrLen (s : String) : Nat :=
  2 + (s.data.map escLen).sum

/-- Serialized length of a natural number literal. -/
def jsonNatLen (n : Nat) : Nat :=
  (toString n).length

/-- Serialized length of `true` / `false`. -/
def jsonBoolLen (b : Bool) : Nat :=
  if b then 4 else 5

/-- Serialized length of a nullable number (`null` is four characters). -/
def jsonOptNatLen : Option Nat → Nat
  | none => 4
  | some n => jsonNatLen n

/-- Serialized length of a nullable string. -/
def jsonOptStrLen : Option String → Nat
  | none => 4
  | some s => jsonStrLen s

/-- Serialized length of a JSON array given its elements' lengths:
brackets, elements, and a comma between consecutive elements. -/
def jsonArrLen (elems : List Nat) : Nat :=
  2 + elems.sum + (elems.length - 1)

/-- Serialized length of one text block object
(`{"content":…,"language":…}` with an optional `"pronunciation"` key). -/
def textVariantLen (t : TextVariant) : Nat :=
  2 + (10 + jsonStrLen t.content) + (1 + 11 + jsonStrLen t.language) +
    (match t.pronunciation with
     | none => 0
     | some p => 1 + 16 + jsonStrLen p)

/-- Serialized length of one Post object (keys in object-literal order). -/
def postLen (p : Post) : Nat :=
  2 + (5 + jsonNatLen p.id)
    + (1 + 8 + jsonArrLen (p.texts.map textVariantLen))
    + (1 + 7 + jsonArrLen (p.tags.map jsonStrLen))
    + (1 + 12 + jsonNatLen p.createdAt)
    + (1 + 12 + jsonNatLen p.updatedAt)
    + (1 + 10 + jsonOptStrLen p.imageId)
    + (1 + 15 + jsonBoolLen p.imageRemoved)
    + (1 + 12 + jsonBoolLen p.isDeleted)
    + (1 + 8 + jsonBoolLen p.liked)
    + (1 + 10 + jsonOptNatLen p.likedAt)
    + (1 + 11 + jsonOptNatLen p.repostOf)

/-- Serialized length of one Reply object (the optional trailing
`"imageRemoved"` key appears only after a reply has been edited). -/
def replyLen (r : Reply) : Nat :=
  2 + (5 + jsonNatLen r.id)
    + (1 + 9 + jsonNatLen r.postId)
    + (1 + 8 + jsonArrLen (r.texts.map textVariantLen))
    + (1 + 7 + jsonArrLen (r.tags.map jsonStrLen))
    + (1 + 12 + jsonNatLen r.createdAt)
    + (1 + 12 + jsonNatLen r.updatedAt)
    + (1 + 10 + jsonOptStrLen r.imageId)
    + (1 + 12 + jsonBoolLen r.isDeleted)
    + (match r.imageRemoved with
       | none => 0
       | some b => 1 + 15 + jsonBoolLen b)

/-- Serialized length of the `images` object: braces, `"id":payload` entries,
and commas between entries. -/
def imagesObjLen (images : List (String × String)) : Nat :=
  2 + (images.map (fun kv => jsonStrLen kv.1 + 1 + jsonStrLen kv.2)).sum + (images.length - 1)

/-- Length of `JSON.stringify(state.data)`: the state object's keys in
insertion order `version, posts, replies, images, lastId` (source lines 6-12).
This models the byte budget checked by `enforceStorageLimit` (line 120). -/
def serializedLength (st : AppState) : Nat :=
  2 + (10 + jsonNatLen st.version)
    + (1 + 8 + jsonArrLen (st.posts.map postLen))
    + (1 + 10 + jsonArrLen (st.replies.map replyLen))
    + (1 + 9 + imagesObjLen st.images)
    + (1 + 9 + jsonNatLen st.lastId)

/-- `removeImageIfUnused(imageId)` (source lines 109-116): a falsy id returns
immediately; otherwise the image is deleted from `images` only when no Post and
no Reply in the *current* state still references it. -/
def removeImageIfUnused (st : AppState) (imageId : Option String) : AppState :=
  match imageId with
  | none => st
  | some iid =>
    if iid.data.isEmpty then st
    else
      let used := st.posts.any (fun p => p.imageId == some iid) ||
                  st.replies.any (fun r => r.imageId == some iid)
      if used then st
      else { st with images := st.images.filter (fun kv => kv.1 != iid) }

/-- `ensureImageId(dataUrl)` (source lines 99-107): scan stored images in
insertion order for an identical payload and reuse its id, otherwise mint a new
id and append the payload. The fresh id (`img-<timestamp>-<random>` in the
source) is supplied as the `freshId` argument. -/
def ensureImageId (images : List (String × String)) (dataUrl : String) (freshId : String) :
    String × List (String × String) :=
  match images.find? (fun kv => kv.2 == dataUrl) with
  | some kv => (kv.1, images)
  | none => (freshId, images ++ [(freshId, dataUrl)])

/-- The sort comparator `(a, b) => a.createdAt - b.createdAt` (line 124) as an
order on the (index, post) pairs of the enumerated posts array. -/
def byCreatedAt (a b : Nat × Post) : Prop :=
  a.2.createdAt ≤ b.2.createdAt

instance : DecidableRel byCreatedAt :=
  fun a b => Nat.decLe a.2.createdAt b.2.createdAt

instance : IsTotal (Nat × Post) byCreatedAt :=
  ⟨fun a b => Nat.le_total a.2.createdAt b.2.createdAt⟩

instance : IsTrans (Nat × Post) byCreatedAt :=
  ⟨fun _ _ _ => Nat.le_trans⟩

/-- The candidate list built on each eviction iteration (source lines 122-124):
posts with a truthy `imageId`, stably sorted by `createdAt` ascending
(`Array.prototype.sort` is specified to be stable; a stable insertion sort is
observably identical). Candidates are (index, post) pairs so that the in-place
mutation of `candidates[0]` can be rendered as a positional update. -/
def evictionCandidates (st : AppState) : List (Nat × Post) :=
  List.insertionSort byCreatedAt (st.posts.enum.filter (fun ip => jsTruthy ip.2.imageId))

/-- Number of posts whose `imageId` is truthy (the eviction loop's measure). -/
def countImaged (st : AppState) : Nat :=
  st.posts.countP (fun p => jsTruthy p.imageId)

/-- One eviction of `target = candidates[0]` (source lines 126-129):
`removeImageIfUnused(target.imageId)` runs first — while the target itself
still references the image — then `target.imageId = null` and
`target.imageRemoved = true`. -/
def evictImage (st : AppState) (i : Nat) (p : Post) : AppState :=
  let st1 := removeImageIfUnused st p.imageId
  { st1 with posts := st1.posts.set i { p with imageId := none, imageRemoved := true } }

theorem removeImageIfUnused_posts (st : AppState) (o : Option String) :
    (removeImageIfUnused st o).posts = st.posts := by
  unfold removeImageIfUnused
  cases o with
  | none => rfl
  | some iid =>
    simp only []
    split
    · rfl
    · split <;> rfl

theorem removeImageIfUnused_replies (st : AppState) (o : Option String) :
    (removeImageIfUnused st o).replies = st.replies := by
  unfold removeImageIfUnused
  cases o with
  | none => rfl
  | some iid =>
    simp only []
    split
    · rfl
    · split <;> rfl

theorem mem_evictionCandidates {st : AppState} {ip : Nat × Post} :
    ip ∈ evictionCandidates st ↔ st.posts[ip.1]? = some ip.2 ∧ jsTruthy ip.2.imageId = true := by
  unfold evictionCandidates
  rw [(List.perm_insertionSort _ _).mem_iff, List.mem_filter, List.mem_enum_iff_getElem?]

theorem mem_evictionCandidates' {st : AppState} {i : Nat} {p : Post} :
    (i, p) ∈ evictionCandidates st ↔ st.posts[i]? = some p ∧ jsTruthy p.imageId = true :=
  mem_evictionCandidates

theorem countP_set_lt {α : Type} (q : α → Bool) :
    ∀ (l : List α) (i : Nat) (a b : α), l[i]? = some a → q a = true → q b = false →
      (l.set i b).countP q < l.countP q := by
  intro l
  induction l with
  | nil => intro i a b h; simp at h
  | cons x xs ih =>
    intro i a b hget hqa hqb
    cases i with
    | zero =>
      simp only [List.getElem?_cons_zero, Option.some.injEq] at hget
      subst hget
      simp [List.countP_cons, hqa, hqb]
    | succ n =>
      simp only [List.getElem?_cons_succ] at hget
      have := ih n a b hget hqa hqb
      simp only [List.set_cons_succ, List.countP_cons]
      omega

theorem countImaged_evictImage_lt {st : AppState} {i : Nat} {p : Post}
    (hget : st.posts[i]? = some p) (htr : jsTruthy p.imageId = true) :
    countImaged (evictImage st i p) < countImaged st := by
  unfold countImaged evictImage
  simp only [removeImageIfUnused_posts]
  exact countP_set_lt _ st.posts i p _ hget htr rfl

/-- `enforceStorageLimit()` (source lines 118-133): while the serialized state
exceeds the budget, strip the image of the oldest image-bearing post; stop when
the state fits or no candidate remains. The final `localStorage.setItem` is the
returned state. -/
def enforceStorageLimit (st : AppState) : AppState :=
  if serializedLength st ≤ STORAGE_LIMIT then st
  else
    match h : evictionCandidates st with
    | [] => st
    | (i, p) :: _ => enforceStorageLimit (evictImage st i p)
termination_by countImaged st
decreasing_by
  have hmem : (i, p) ∈ evictionCandidates st := by rw [h]; exact List.mem_cons_self _ _
  have := mem_evictionCandidates.mp hmem
  exact countImaged_evictImage_lt this.1 this.2

/-- `persistData()` (source lines 45-48): write the state, then run eviction. -/
def persistData (st : AppState) : AppState :=
  enforceStorageLimit st

/-- The eviction loop with explicit fuel: same body as `enforceStorageLimit`,
but giving up after `fuel` iterations. Used to state the iteration bound. -/
def enforceStorageLimitFuel : Nat → AppState → AppState
  | 0, st => st
  | fuel + 1, st =>
    if serializedLength st ≤ STORAGE_LIMIT then st
    else
      match evictionCandidates st with
      | [] => st
      | (i, p) :: _ => enforceStorageLimitFuel fuel (evictImage st i p)

theorem mem_of_getElem? {α : Type} {l : List α} {i : Nat} {a : α}
    (h : l[i]? = some a) : a ∈ l := by
  obtain ⟨hlt, rfl⟩ := List.getElem?_eq_some.mp h
  exact List.getElem_mem hlt

theorem set_getElem?_self {α : Type} :
    ∀ (l : List α) (i : Nat) (a : α), l[i]? = some a → l.set i a = l := by
  intro l
  induction l with
  | nil => intro i a h; simp at h
  | cons x xs ih =>
    intro i a h
    cases i with
    | zero => simp_all
    | succ n =>
      simp only [List.getElem?_cons_succ] at h
      simp [ih n a h]

theorem removeImageIfUnused_of_post_ref {st : AppState} {p : Post}
    (hmem : p ∈ st.posts) (htr : jsTruthy p.imageId = true) :
    removeImageIfUnused st p.imageId = st := by
  cases hid : p.imageId with
  | none => simp [removeImageIfUnused]
  | some iid =>
    have hne : iid.data.isEmpty = false := by
      rw [hid] at htr
      simpa [jsTruthy] using htr
    have hused : st.posts.any (fun q => q.imageId == some iid) = true := by
      rw [List.any_eq_true]
      exact ⟨p, hmem, by simp [hid]⟩
    unfold removeImageIfUnused
    simp [hne, hused]

/-- In the eviction loop, `removeImageIfUnused(target.imageId)` runs while the
target itself is still in `posts` and still references the image, so the
`used` check always succeeds and the step reduces to nulling the target's
`imageId` and flagging `imageRemoved`: the payload is never deleted. -/
theorem evictImage_eq {st : AppState} {i : Nat} {p : Post}
    (hget : st.posts[i]? = some p) (htr : jsTruthy p.imageId = true) :
    evictImage st i p =
      { st with posts := st.posts.set i { p with imageId := none, imageRemoved := true } } := by
  unfold evictImage
  rw [removeImageIfUnused_of_post_ref (mem_of_getElem? hget) htr]

theorem enforceStorageLimit_fit {st : AppState}
    (h : serializedLength st ≤ STORAGE_LIMIT) :
    enforceStorageLimit st = st := by
  unfold enforceStorageLimit
  simp [h]

theorem enforceStorageLimit_stuck {st : AppState}
    (h : ¬ serializedLength st ≤ STORAGE_LIMIT) (hc : evictionCandidates st = []) :
    enforceStorageLimit st = st := by
  unfold enforceStorageLimit
  rw [if_neg h]
  split
  · rfl
  · next i p tail heq =>
    rw [hc] at heq
    cases heq

theorem enforceStorageLimit_step {st : AppState} {i : Nat} {p : Post}
    {rest : List (Nat × Post)}
    (h : ¬ serializedLength st ≤ STORAGE_LIMIT)
    (hc : evictionCandidates st = (i, p) :: rest) :
    enforceStorageLimit st = enforceStorageLimit (evictImage st i p) := by
  conv_lhs => unfold enforceStorageLimit
  rw [if_neg h]
  split
  · next heq =>
    rw [hc] at heq
    cases heq
  · next i2 p2 tail heq =>
    rw [hc] at heq
    injection heq with h1 h2
    injection h1 with hi hp
    subst hi
    subst hp
    rfl

theorem enforceStorageLimit_images (st : AppState) :
    (enforceStorageLimit st).images = st.images := by
  induction st using enforceStorageLimit.induct with
  | case1 st h => rw [enforceStorageLimit_fit h]
  | case2 st h hc => rw [enforceStorageLimit_stuck h hc]
  | case3 st h i p rest hc ih =>
    rw [enforceStorageLimit_step h hc, ih]
    have hm := mem_evictionCandidates.mp (hc ▸ List.mem_cons_self (i, p) rest)
    rw [evictImage_eq hm.1 hm.2]

theorem enforceStorageLimit_replies (st : AppState) :
    (enforceStorageLimit st).replies = st.replies := by
  induction st using enforceStorageLimit.induct with
  | case1 st h => rw [enforceStorageLimit_fit h]
  | case2 st h hc => rw [enforceStorageLimit_stuck h hc]
  | case3 st h i p rest hc ih =>
    rw [enforceStorageLimit_step h hc, ih]
    have hm := mem_evictionCandidates.mp (hc ▸ List.mem_cons_self (i, p) rest)
    rw [evictImage_eq hm.1 hm.2]

/-- Eviction only writes the `imageId` and `imageRemoved` fields of posts:
any per-post view that ignores those two fields is preserved by the loop. -/
theorem enforceStorageLimit_posts_map {β : Type} (f : Post → β)
    (hf : ∀ p : Post, f { p with imageId := none, imageRemoved := true } = f p)
    (st : AppState) :
    (enforceStorageLimit st).posts.map f = st.posts.map f := by
  induction st using enforceStorageLimit.induct with
  | case1 st h => rw [enforceStorageLimit_fit h]
  | case2 st h hc => rw [enforceStorageLimit_stuck h hc]
  | case3 st h i p rest hc ih =>
    rw [enforceStorageLimit_step h hc, ih]
    have hm := mem_evictionCandidates.mp (hc ▸ List.mem_cons_self (i, p) rest)
    rw [evictImage_eq hm.1 hm.2]
    show (st.posts.set i _).map f = st.posts.map f
    rw [List.map_set, hf p, set_getElem?_self]
    rw [List.getElem?_eq_some]
    obtain ⟨hlt, hval⟩ := List.getElem?_eq_some.mp hm.1
    exact ⟨by simpa using hlt, by simp [hval]⟩

theorem enforceStorageLimit_posts_length (st : AppState) :
    (enforceStorageLimit st).posts.length = st.posts.length := by
  have := enforceStorageLimit_posts_map (fun _ => (1 : Nat)) (fun _ => rfl) st
  calc (enforceStorageLimit st).posts.length
      = ((enforceStorageLimit st).posts.map (fun _ => (1 : Nat))).length := by
        rw [List.length_map]
    _ = (st.posts.map (fun _ => (1 : Nat))).length := by rw [this]
    _ = st.posts.length := by rw [List.length_map]

/-- The character data of every image payload appears inside the serialized
state, so the total payload length bounds the serialized length from below. -/
theorem payload_sum_le_serializedLength (st : AppState) :
    ((st.images.map (fun kv => kv.2.length)).sum : Nat) ≤ serializedLength st := by
  have hesc : ∀ s : String, s.length ≤ jsonStrLen s := by
    intro s
    unfold jsonStrLen
    have h1 : ∀ x ∈ s.data.map escLen, 1 ≤ x := by
      intro x hx
      obtain ⟨c, _, rfl⟩ := List.mem_map.mp hx
      unfold escLen
      split
      · omega
      · split
        · split <;> omega
        · omega
    have := List.length_le_sum_of_one_le _ h1
    simp only [List.length_map] at this
    calc s.length = s.data.length := rfl
      _ ≤ (s.data.map escLen).sum := this
      _ ≤ 2 + (s.data.map escLen).sum := by omega
  have hsum : (st.images.map (fun kv => kv.2.length)).sum ≤
      (st.images.map (fun kv => jsonStrLen kv.1 + 1 + jsonStrLen kv.2)).sum := by
    apply List.sum_le_sum
    intro kv _
    have := hesc kv.2
    omega
  unfold serializedLength imagesObjLen
  omega

theorem enforceStorageLimitFuel_eq_of_le :
    ∀ (fuel : Nat) (st : AppState), countImaged st ≤ fuel →
      enforceStorageLimitFuel fuel st = enforceStorageLimit st := by
  intro fuel
  induction fuel with
  | zero =>
    intro st hle
    by_cases h : serializedLength st ≤ STORAGE_LIMIT
    · rw [enforceStorageLimit_fit h]
      rfl
    · have hc : evictionCandidates st = [] := by
        cases hcc : evictionCandidates st with
        | nil => rfl
        | cons hd tl =>
          exfalso
          have hm := mem_evictionCandidates.mp (hcc ▸ List.mem_cons_self hd tl)
          have hpos : 0 < countImaged st := by
            unfold countImaged
            rw [List.countP_pos_iff]
            exact ⟨hd.2, mem_of_getElem? hm.1, hm.2⟩
          omega
      rw [enforceStorageLimit_stuck h hc]
      rfl
  | succ n ih =>
    intro st hle
    by_cases h : serializedLength st ≤ STORAGE_LIMIT
    · rw [enforceStorageLimit_fit h]
      simp [enforceStorageLimitFuel, h]
    · cases hc : evictionCandidates st with
      | nil =>
        rw [enforceStorageLimit_stuck h hc]
        simp [enforceStorageLimitFuel, h, hc]
      | cons hd tl =>
        obtain ⟨i, p⟩ := hd
        have hm := mem_evictionCandidates'.mp (hc ▸ List.mem_cons_self (i, p) tl)
        have hlt := countImaged_evictImage_lt hm.1 hm.2
        rw [enforceStorageLimit_step h hc]
        have hstep : enforceStorageLimitFuel (n + 1) st =
            enforceStorageLimitFuel n (evictImage st i p) := by
          simp [enforceStorageLimitFuel, h, hc]
        rw [hstep]
        exact ih _ (by omega)

theorem pair_sublist_of_getElem? {α : Type} :
    ∀ (l : List α) (j i : Nat) (a b : α), j < i → l[j]? = some a → l[i]? = some b →
      List.Sublist [a, b] l := by
  intro l
  induction l with
  | nil => intro j i a b _ h; simp at h
  | cons x xs ih =>
    intro j i a b hji ha hb
    cases j with
    | zero =>
      simp only [List.getElem?_cons_zero, Option.some.injEq] at ha
      subst ha
      cases i with
      | zero => omega
      | succ n =>
        simp only [List.getElem?_cons_succ] at hb
        exact List.Sublist.cons₂ _ (List.singleton_sublist.mpr (mem_of_getElem? hb))
    | succ m =>
      cases i with
      | zero => omega
      | succ n =>
        simp only [List.getElem?_cons_succ] at ha hb
        exact List.Sublist.cons _ (ih m n a b (by omega) ha hb)

theorem evictionCandidates_fst_nodup (st : AppState) :
    ((evictionCandidates st).map Prod.fst).Nodup := by
  have hperm :
      (evictionCandidates st).Perm
        (st.posts.enum.filter (fun ip => jsTruthy ip.2.imageId)) :=
    List.perm_insertionSort _ _
  have hsub := (List.filter_sublist (p := fun ip : Nat × Post => jsTruthy ip.2.imageId)
    st.posts.enum).map Prod.fst
  have hnd : (st.posts.enum.map Prod.fst).Nodup := by
    rw [List.enum_map_fst]
    exact List.nodup_range _
  exact ((hperm.map Prod.fst).nodup_iff).mpr (hsub.nodup hnd)

/-- The head of the candidate list is a minimal-`createdAt` image-bearing post,
and among equal `createdAt` it carries the least original index (stability of
the sort). -/
theorem evictionCandidates_head_min {st : AppState} {i : Nat} {p : Post}
    {rest : List (Nat × Post)} (hc : evictionCandidates st = (i, p) :: rest) :
    ∀ j q, st.posts[j]? = some q → jsTruthy q.imageId = true →
      p.createdAt ≤ q.createdAt ∧ (q.createdAt = p.createdAt → i ≤ j) := by
  intro j q hget htr
  have hjq : (j, q) ∈ evictionCandidates st := mem_evictionCandidates.mpr ⟨hget, htr⟩
  have hhead : st.posts[i]? = some p ∧ jsTruthy p.imageId = true :=
    mem_evictionCandidates'.mp (hc ▸ List.mem_cons_self (i, p) rest)
  constructor
  · rw [hc] at hjq
    rcases List.mem_cons.mp hjq with heq | hmem
    · injection heq with h1 h2
      subst h2
      exact Nat.le_refl _
    · have hs : List.Sorted byCreatedAt (evictionCandidates st) :=
        List.sorted_insertionSort byCreatedAt _
      rw [hc] at hs
      exact (List.sorted_cons.mp hs).1 (j, q) hmem
  · intro heqc
    by_contra hij
    push_neg at hij
    have hpair_enum : List.Sublist [(j, q), (i, p)] st.posts.enum := by
      apply pair_sublist_of_getElem? st.posts.enum j i (j, q) (i, p) hij
      · rw [List.getElem?_enum, hget]; rfl
      · rw [List.getElem?_enum, hhead.1]; rfl
    have hpair_filter :
        List.Sublist [(j, q), (i, p)]
          (st.posts.enum.filter (fun ip => jsTruthy ip.2.imageId)) := by
      have := hpair_enum.filter (fun ip : Nat × Post => jsTruthy ip.2.imageId)
      simpa [List.filter, htr, hhead.2] using this
    have hle : byCreatedAt (j, q) (i, p) := by
      show q.createdAt ≤ p.createdAt
      omega
    have hpair_sorted : List.Sublist [(j, q), (i, p)] (evictionCandidates st) :=
      List.pair_sublist_insertionSort hle hpair_filter
    rw [hc] at hpair_sorted
    rcases List.sublist_cons_iff.mp hpair_sorted with hsub | ⟨r, hr, hrsub⟩
    · have hmem : (i, p) ∈ rest := hsub.subset (by simp)
      have hnd := evictionCandidates_fst_nodup st
      rw [hc] at hnd
      simp only [List.map_cons, List.nodup_cons] at hnd
      exact hnd.1 (List.mem_map.mpr ⟨(i, p), hmem, rfl⟩)
    · injection hr with h1 h2
      injection h1 with hji _
      omega

theorem evictionCandidates_eq_nil_iff {st : AppState} :
    evictionCandidates st = [] ↔ ∀ p ∈ st.posts, jsTruthy p.imageId = false := by
  constructor
  · intro h p hp
    by_contra hn
    have htr : jsTruthy p.imageId = true := by
      revert hn
      cases jsTruthy p.imageId <;> simp
    obtain ⟨n, hn'⟩ := List.mem_iff_getElem?.mp hp
    have : (n, p) ∈ evictionCandidates st := mem_evictionCandidates.mpr ⟨hn', htr⟩
    rw [h] at this
    cases this
  · intro hall
    cases hcc : evictionCandidates st with
    | nil => rfl
    | cons hd tl =>
      exfalso
      have hm := mem_evictionCandidates.mp (hcc ▸ List.mem_cons_self hd tl)
      have := hall hd.2 (mem_of_getElem? hm.1)
      rw [hm.2] at this
      cases this

/-- Every state the application itself builds keeps `imageId` either null or a
non-empty id string (`ensureImageId` mints non-empty ids and `imageId || null`
normalizes `""` to null), so JavaScript truthiness of `imageId` coincides with
non-nullness. -/
def ImageIdsWF (st : AppState) : Prop :=
  ∀ p ∈ st.posts, p.imageId ≠ some ""

instance (st : AppState) : Decidable (ImageIdsWF st) := by
  unfold ImageIdsWF
  infer_instance

theorem imageId_none_of_not_truthy {p : Post} (hwf : p.imageId ≠ some "")
    (h : jsTruthy p.imageId = false) : p.imageId = none := by
  cases hid : p.imageId with
  | none => rfl
  | some s =>
    exfalso
    rw [hid] at h hwf
    simp only [jsTruthy, Bool.not_eq_true'] at h
    have hdata : s.data = [] := by simpa using h
    have : s = "" := by cases s; simp_all
    exact hwf (by rw [this])

/-- Text blocks as read from the form (source lines 351-355): `content` and
`pronunciation` are passed through `trim`. -/
def trimBlocks (blocks : List TextVariant) : List TextVariant :=
  blocks.map (fun t =>
    { content := jsTrim t.content, language := t.language,
      pronunciation := t.pronunciation.map jsTrim })

/-- `textBlocks.some((t) => t.content.length > 0)` (source line 356). -/
def hasContent (textBlocks : List TextVariant) : Bool :=
  textBlocks.any (fun t => !t.content.data.isEmpty)

/-- Image-id resolution at the top of the submit handler (source lines 362-368):
start from the edit target's current image, then override with a newly selected
image (registered via `ensureImageId`) or with the remove-image flag. -/
def resolveImage (images : List (String × String)) (targetImageId : Option String)
    (imageDataUrl : Option String) (removeImage : Bool) (freshId : String) :
    Option String × List (String × String) :=
  match imageDataUrl with
  | some url =>
    if url.data.isEmpty then
      if removeImage then (none, images) else (targetImageId, images)
    else
      let r := ensureImageId images url freshId
      (some r.1, r.2)
  | none =>
    if removeImage then (none, images) else (targetImageId, images)

/-- The submit handler in `create` mode (source lines 350-416, branch 397-411).
`target` is the repost duplicate passed as `targetPost` when reposting (line
590); `freshId` and `now` stand for the source's `Date.now()`-based id minting
and timestamps. `none` means validation rejected the submission (alert at line
358) and the handler returned without mutating anything. -/
def submitCreate (st : AppState) (blocks : List TextVariant) (imageDataUrl : Option String)
    (removeImage : Bool) (target : Option Post) (freshId : String) (now : Nat) :
    Option AppState :=
  let textBlocks := trimBlocks blocks
  if !hasContent textBlocks then none
  else
    let tags := extractTags textBlocks
    let init : Option String := match target with | some tp => tp.imageId | none => none
    let r := resolveImage st.images init imageDataUrl removeImage freshId
    let lastId := st.lastId + 1
    let post : Post :=
      { id := lastId, texts := textBlocks, tags := tags, createdAt := now, updatedAt := now,
        imageId := jsOrNull r.1, imageRemoved := false, isDeleted := false,
        liked := false, likedAt := none,
        repostOf := match target with | some tp => some tp.id | none => none }
    some (persistData { st with images := r.2, lastId := lastId, posts := st.posts ++ [post] })

/-- The submit handler in `reply` mode (source lines 370-381). -/
def submitReply (st : AppState) (parentId : Nat) (blocks : List TextVariant)
    (imageDataUrl : Option String) (removeImage : Bool) (freshId : String) (now : Nat) :
    Option AppState :=
  let textBlocks := trimBlocks blocks
  if !hasContent textBlocks then none
  else
    let tags := extractTags textBlocks
    let r := resolveImage st.images none imageDataUrl removeImage freshId
    let lastId := st.lastId + 1
    let reply : Reply :=
      { id := lastId, postId := parentId, texts := textBlocks, tags := tags,
        createdAt := now, updatedAt := now, imageId := jsOrNull r.1,
        isDeleted := false, imageRemoved := none }
    some (persistData { st with images := r.2, lastId := lastId, replies := st.replies ++ [reply] })

/-- The submit handler in `edit` mode on a Post, `targetPost = state.data.posts[idx]`
(source lines 382-396). Lines 383-385 always install the new texts, tags and
`updatedAt`; with a newly selected image the id is swapped in, `imageRemoved`
is reset, and the original image is released *after* the swap (lines 386-391);
with the remove-image flag, `removeImageIfUnused(originalImageId)` runs at line
393 while the post still references the image, and only then is `imageId`
cleared (line 394). -/
def submitEditPost (st : AppState) (idx : Nat) (blocks : List TextVariant)
    (imageDataUrl : Option String) (removeImage : Bool) (freshId : String) (now : Nat) :
    Option AppState :=
  let textBlocks := trimBlocks blocks
  if !hasContent textBlocks then none
  else
    match st.posts[idx]? with
    | none => some (persistData st)
    | some target =>
      let tags := extractTags textBlocks
      let originalImageId := target.imageId
      let r := resolveImage st.images target.imageId imageDataUrl removeImage freshId
      let st1 := { st with images := r.2 }
      let base : Post := { target with texts := textBlocks, tags := tags, updatedAt := now }
      match imageDataUrl with
      | some _ =>
        let st2 := { st1 with
          posts := st1.posts.set idx { base with imageId := r.1, imageRemoved := false } }
        let st3 := if jsTruthy originalImageId && originalImageId != r.1
                   then removeImageIfUnused st2 originalImageId else st2
        some (persistData st3)
      | none =>
        if removeImage then
          let st2 := { st1 with posts := st1.posts.set idx base }
          let st3 := removeImageIfUnused st2 originalImageId
          let st4 := { st3 with
            posts := st3.posts.set idx { base with imageId := none, imageRemoved := false } }
          some (persistData st4)
        else
          some (persistData { st1 with posts := st1.posts.set idx base })

/-- The submit handler in `edit` mode on a Reply, `targetPost = state.data.replies[idx]`
(same branch, lines 382-396, reached from the reply edit button at line 672).
Assigning `imageRemoved` adds that key to the reply object, hence `some`. -/
def submitEditReply (st : AppState) (idx : Nat) (blocks : List TextVariant)
    (imageDataUrl : Option String) (removeImage : Bool) (freshId : String) (now : Nat) :
    Option AppState :=
  let textBlocks := trimBlocks blocks
  if !hasContent textBlocks then none
  else
    match st.replies[idx]? with
    | none => some (persistData st)
    | some target =>
      let tags := extractTags textBlocks
      let originalImageId := target.imageId
      let r := resolveImage st.images target.imageId imageDataUrl removeImage freshId
      let st1 := { st with images := r.2 }
      let base : Reply := { target with texts := textBlocks, tags := tags, updatedAt := now }
      match imageDataUrl with
      | some _ =>
        let st2 := { st1 with
          replies := st1.replies.set idx { base with imageId := r.1, imageRemoved := some false } }
        let st3 := if jsTruthy originalImageId && originalImageId != r.1
                   then removeImageIfUnused st2 originalImageId else st2
        some (persistData st3)
      | none =>
        if removeImage then
          let st2 := { st1 with replies := st1.replies.set idx base }
          let st3 := removeImageIfUnused st2 originalImageId
          let st4 := { st3 with
            replies := st3.replies.set idx { base with imageId := none, imageRemoved := some false } }
          some (persistData st4)
        else
          some (persistData { st1 with replies := st1.replies.set idx base })

/-- `deletePost(id)` (source lines 694-709), with the `window.confirm` dialog
modelled as accepted (declining returns without any state change). The first
post with the given id is targeted; with replies present it is soft-deleted
(`isDeleted = true`, texts cleared to one empty ja variant, tags untouched),
otherwise `removeImageIfUnused(post.imageId)` runs while the post is still in
the collection and the record is then filtered out. -/
def deletePost (st : AppState) (id : Nat) : AppState :=
  match st.posts.findIdx? (fun p => p.id == id) with
  | none => st
  | some i =>
    match st.posts[i]? with
    | none => st
    | some post =>
      let hasReplies := st.replies.any (fun r => r.postId == id)
      if hasReplies then
        let cleared : Post :=
          { post with isDeleted := true,
                      texts := [{ content := "", language := "ja", pronunciation := none }] }
        persistData { st with posts := st.posts.set i cleared }
      else
        let st1 := removeImageIfUnused st post.imageId
        persistData { st1 with posts := st1.posts.filter (fun p => p.id != id) }

/-- `String.prototype.includes`: substring containment, at the character level. -/
def containsSub (s pat : String) : Bool :=
  decide (pat.data <:+: s.data)

/-- Split a character list at whitespace characters (runs of whitespace
produce empty pieces, which the caller filters out, as `/\s+/` with
`.filter(Boolean)` does). -/
def splitWs : List Char → List Char → List String
  | [], acc => [String.mk acc.reverse]
  | c :: rest, acc =>
    if c.isWhitespace then String.mk acc.reverse :: splitWs rest []
    else splitWs rest (c :: acc)

/-- `t.startsWith('#')` at the character level. -/
def startsWithHash (s : String) : Bool :=
  match s.data with
  | c :: _ => c == '#'
  | [] => false

/-- `t.slice(1)` at the character level. -/
def sliceFrom1 (s : String) : String :=
  String.mk (s.data.drop 1)

/-- `query.trim().split(/\s+/).filter(Boolean)` (source line 735). -/
def parseTerms (query : String) : List String :=
  (splitWs (jsTrim query).data []).filter (fun s => !s.data.isEmpty)

/-- Accumulator of the term-classification loop (source lines 736-741). -/
structure ParsedQuery where
  tagFilter : Option String
  textTerms : List String
deriving DecidableEq

/-- One step of the `terms.forEach` loop (source lines 738-741): a `#`-prefixed
term overwrites `tagFilter` with the term minus its `#`; any other term is
pushed onto `textTerms`. -/
def parseStep (acc : ParsedQuery) (t : String) : ParsedQuery :=
  if startsWithHash t then { acc with tagFilter := some (sliceFrom1 t) }
  else { acc with textTerms := acc.textTerms ++ [t] }

/-- The `terms.forEach` loop (source lines 738-741). -/
def parseQuery (query : String) : ParsedQuery :=
  (parseTerms query).foldl parseStep { tagFilter := none, textTerms := [] }

/-- The search result comparator `(a, b) => b.createdAt - a.createdAt` (line 752). -/
def byCreatedAtDesc (a b : Post) : Prop :=
  b.createdAt ≤ a.createdAt

instance : DecidableRel byCreatedAtDesc :=
  fun a b => Nat.decLe b.createdAt a.createdAt

instance : IsTotal Post byCreatedAtDesc :=
  ⟨fun a b => Nat.le_total b.createdAt a.createdAt⟩

instance : IsTrans Post byCreatedAtDesc :=
  ⟨fun _ _ _ h h2 => Nat.le_trans h2 h⟩

/-- `runSearch()` (source lines 731-759) as a function of the query text and
state, returning the posts in display order. `if (tagFilter)` is falsy both for
no `#` term and for a bare `#` (empty remainder), in which case no tag
filtering happens. -/
def runSearch (query : String) (st : AppState) : List Post :=
  let pq := parseQuery query
  let results0 := st.posts.filter (fun p => !p.isDeleted)
  let results1 :=
    match pq.tagFilter with
    | some tf =>
      if tf.data.isEmpty then results0
      else
        let tagLower := jsToLower tf
        results0.filter (fun p => p.tags.any (fun tag => jsToLower tag == tagLower))
    | none => results0
  let results2 :=
    if pq.textTerms.isEmpty then results1
    else
      let lowerTerms := pq.textTerms.map jsToLower
      results1.filter (fun p =>
        lowerTerms.all (fun term => p.texts.any (fun t => containsSub (jsToLower t.content) term)))
  List.insertionSort byCreatedAtDesc results2

/-- Modelled from the spec: the spec-side reading of the query's tag filter —
"tokens starting with `#` become an exact (case-insensitive) tag filter (last
one wins if multiple supplied)" — i.e. the last whitespace token beginning with
`#`, with the `#` removed. Stated independently of `parseQuery` for comparison. -/
def lastHashTokenSpec (query : String) : Option String :=
  (((parseTerms query).filter startsWithHash).getLast?).map sliceFrom1

theorem string_eq_empty_of_data_nil {s : String} (h : s.data = []) : s = "" := by
  cases s
  simp_all

theorem truthy_of_ne {o : Option String} (h1 : o ≠ none) (h2 : o ≠ some "") :
    jsTruthy o = true := by
  cases o with
  | none => exact absurd rfl h1
  | some s =>
    cases hs : s.data with
    | nil => exact absurd (by rw [string_eq_empty_of_data_nil hs]) h2
    | cons c l => simp [jsTruthy, hs]

theorem jsSetAdd_nodup {acc : List String} (h : acc.Nodup) (t : String) :
    (jsSetAdd acc t).Nodup := by
  unfold jsSetAdd
  split
  · exact h
  · next hmem =>
    simp [List.nodup_append, h, hmem]

theorem foldl_jsSetAdd_nodup (ts : List String) :
    ∀ acc : List String, acc.Nodup → (ts.foldl jsSetAdd acc).Nodup := by
  induction ts with
  | nil => intro acc h; exact h
  | cons t ts ih => intro acc h; exact ih _ (jsSetAdd_nodup h t)

theorem extractTags_nodup (texts : List TextVariant) : (extractTags texts).Nodup := by
  unfold extractTags
  suffices h : ∀ acc : List String, acc.Nodup →
      (texts.foldl (fun acc t => (tagMatches t.content.data).foldl jsSetAdd acc) acc).Nodup by
    exact h [] List.nodup_nil
  induction texts with
  | nil => intro acc h; exact h
  | cons t ts ih => intro acc h; exact ih _ (foldl_jsSetAdd_nodup _ acc h)

/-- C6: tag extraction is a deterministic (pure) function of the input texts;
on `"hello #foo world #bar #foo"` it returns exactly `["foo", "bar"]`
(deduplicated, first-occurrence order); case is preserved, so `#Foo` and
`#foo` are distinct tags; and the result never contains duplicates. -/
theorem extractTags_first_occurrence_dedup :
    extractTags [{ content := "hello #foo world #bar #foo", language := "en-US",
                   pronunciation := some "" }] = ["foo", "bar"] ∧
    extractTags [{ content := "#Foo #foo", language := "ja", pronunciation := none }] =
      ["Foo", "foo"] ∧
    ∀ texts : List TextVariant, (extractTags texts).Nodup :=
  ⟨by decide, by decide, extractTags_nodup⟩

theorem hasContent_false_iff (blocks : List TextVariant) :
    hasContent (trimBlocks blocks) = false ↔ ∀ b ∈ blocks, jsTrim b.content = "" := by
  unfold hasContent trimBlocks
  rw [List.any_map, List.any_eq_false]
  constructor
  · intro h b hb
    have := h b hb
    simp only [Function.comp, Bool.not_eq_true', Bool.not_eq_false] at this
    exact string_eq_empty_of_data_nil (by simpa using this)
  · intro h b hb
    have := h b hb
    simp [Function.comp, this]

theorem submitCreate_none_iff (st : AppState) (blocks : List TextVariant)
    (imageDataUrl : Option String) (removeImage : Bool) (target : Option Post)
    (freshId : String) (now : Nat) :
    submitCreate st blocks imageDataUrl removeImage target freshId now = none ↔
      hasContent (trimBlocks blocks) = false := by
  unfold submitCreate
  cases hv : hasContent (trimBlocks blocks) <;> simp [hv]

theorem submitReply_none_iff (st : AppState) (parentId : Nat) (blocks : List TextVariant)
    (imageDataUrl : Option String) (removeImage : Bool) (freshId : String) (now : Nat) :
    submitReply st parentId blocks imageDataUrl removeImage freshId now = none ↔
      hasContent (trimBlocks blocks) = false := by
  unfold submitReply
  cases hv : hasContent (trimBlocks blocks) <;> simp [hv]

theorem submitEditPost_none_iff (st : AppState) (idx : Nat) (blocks : List TextVariant)
    (imageDataUrl : Option String) (removeImage : Bool) (freshId : String) (now : Nat) :
    submitEditPost st idx blocks imageDataUrl removeImage freshId now = none ↔
      hasContent (trimBlocks blocks) = false := by
  unfold submitEditPost
  cases hv : hasContent (trimBlocks blocks) <;> simp [hv]
  split
  · simp
  · split
    · simp
    · split <;> simp

theorem submitEditReply_none_iff (st : AppState) (idx : Nat) (blocks : List TextVariant)
    (imageDataUrl : Option String) (removeImage : Bool) (freshId : String) (now : Nat) :
    submitEditReply st idx blocks imageDataUrl removeImage freshId now = none ↔
      hasContent (trimBlocks blocks) = false := by
  unfold submitEditReply
  cases hv : hasContent (trimBlocks blocks) <;> simp [hv]
  split
  · simp
  · split
    · simp
    · split <;> simp

/-- C9: each submission path (create post, reply, edit post, edit reply)
returns `none` — the handler alerts and returns before any mutation, so the
state is untouched — exactly when every text block's trimmed content is empty;
when some block has non-empty trimmed content the mutation proceeds
(a persisted state is returned). -/
theorem empty_content_submission_rejected (st : AppState) (blocks : List TextVariant)
    (imageDataUrl : Option String) (removeImage : Bool) (target : Option Post)
    (parentId idxP idxR : Nat) (freshId : String) (now : Nat) :
    (submitCreate st blocks imageDataUrl removeImage target freshId now = none ↔
      ∀ b ∈ blocks, jsTrim b.content = "") ∧
    (submitReply st parentId blocks imageDataUrl removeImage freshId now = none ↔
      ∀ b ∈ blocks, jsTrim b.content = "") ∧
    (submitEditPost st idxP blocks imageDataUrl removeImage freshId now = none ↔
      ∀ b ∈ blocks, jsTrim b.content = "") ∧
    (submitEditReply st idxR blocks imageDataUrl removeImage freshId now = none ↔
      ∀ b ∈ blocks, jsTrim b.content = "") := by
  rw [← hasContent_false_iff blocks]
  refine ⟨?_, ?_, ?_, ?_⟩
  · exact submitCreate_none_iff st blocks imageDataUrl removeImage target freshId now
  · exact submitReply_none_iff st parentId blocks imageDataUrl removeImage freshId now
  · exact submitEditPost_none_iff st idxP blocks imageDataUrl removeImage freshId now
  · exact submitEditReply_none_iff st idxR blocks imageDataUrl removeImage freshId now

/-- C3: after `save` (persist followed by eviction) either the serialized state
fits the 5,242,880-byte budget, or no Post retains a non-null `imageId`: the
over-budget state is persisted precisely in the case where no evictable
candidate remains. Stated for states whose image references are null or
non-empty (`ImageIdsWF`), which is every state the application constructs. -/
theorem save_fits_or_no_evictable_candidate (st : AppState) :
    ImageIdsWF st →
      serializedLength (enforceStorageLimit st) ≤ STORAGE_LIMIT ∨
        ∀ p ∈ (enforceStorageLimit st).posts, p.imageId = none := by
  induction st using enforceStorageLimit.induct with
  | case1 st h =>
    intro _
    rw [enforceStorageLimit_fit h]
    exact Or.inl h
  | case2 st h hc =>
    intro hwf
    rw [enforceStorageLimit_stuck h hc]
    exact Or.inr fun p hp =>
      imageId_none_of_not_truthy (hwf p hp) (evictionCandidates_eq_nil_iff.mp hc p hp)
  | case3 st h i p rest hc ih =>
    intro hwf
    rw [enforceStorageLimit_step h hc]
    apply ih
    intro q hq
    have hm := mem_evictionCandidates'.mp (hc ▸ List.mem_cons_self (i, p) rest)
    rw [evictImage_eq hm.1 hm.2] at hq
    rcases List.mem_or_eq_of_mem_set hq with hq2 | rfl
    · exact hwf q hq2
    · simp

/-- A small well-formed demonstration state (one post, one reply, no images). -/
def demoPost : Post :=
  { id := 1, texts := [{ content := "hello #x", language := "ja", pronunciation := some "" }],
    tags := ["x"], createdAt := 10, updatedAt := 10, imageId := none,
    imageRemoved := false, isDeleted := false, liked := false, likedAt := none,
    repostOf := none }

def demoReply : Reply :=
  { id := 2, postId := 1, texts := [{ content := "re", language := "ja", pronunciation := some "" }],
    tags := [], createdAt := 11, updatedAt := 11, imageId := none, isDeleted := false,
    imageRemoved := none }

def demoState : AppState :=
  { version := 1, posts := [demoPost], replies := [demoReply], images := [], lastId := 2 }

theorem save_fits_or_no_evictable_candidate_witness :
    ImageIdsWF demoState ∧
      (serializedLength (enforceStorageLimit demoState) ≤ STORAGE_LIMIT ∨
        ∀ p ∈ (enforceStorageLimit demoState).posts, p.imageId = none) :=
  ⟨by decide, save_fits_or_no_evictable_candidate demoState (by decide)⟩

/-- C4: whenever the eviction loop builds a non-empty candidate list, its head
is an image-bearing post of minimal `createdAt`, with ties broken by least
original position in `posts`; and the whole eviction run never modifies the
`replies` collection nor the `images` mapping (so reply images and
reply-only-referenced payloads are untouched). Stated for states whose image
references are null or non-empty (`ImageIdsWF`). -/
theorem eviction_selects_oldest_post_never_replies (st : AppState) :
    ImageIdsWF st →
      (∀ i p rest, evictionCandidates st = (i, p) :: rest →
        st.posts[i]? = some p ∧ p.imageId ≠ none ∧
        ∀ j q, st.posts[j]? = some q → q.imageId ≠ none →
          p.createdAt ≤ q.createdAt ∧ (q.createdAt = p.createdAt → i ≤ j)) ∧
      (enforceStorageLimit st).replies = st.replies ∧
      (enforceStorageLimit st).images = st.images := by
  intro hwf
  refine ⟨?_, enforceStorageLimit_replies st, enforceStorageLimit_images st⟩
  intro i p rest hc
  have hm := mem_evictionCandidates'.mp (hc ▸ List.mem_cons_self (i, p) rest)
  have hpne : p.imageId ≠ none := by
    intro hn
    have := hm.2
    rw [hn] at this
    simp [jsTruthy] at this
  refine ⟨hm.1, hpne, ?_⟩
  intro j q hget hqne
  have hqtr : jsTruthy q.imageId = true :=
    truthy_of_ne hqne (hwf q (mem_of_getElem? hget))
  exact evictionCandidates_head_min hc j q hget hqtr

/-- Witness state for C4: two image-bearing posts with equal `createdAt`. -/
def tiePostX : Post :=
  { id := 1, texts := [{ content := "x", language := "ja", pronunciation := some "" }],
    tags := [], createdAt := 7, updatedAt := 7, imageId := some "ix",
    imageRemoved := false, isDeleted := false, liked := false, likedAt := none,
    repostOf := none }

def tiePostY : Post :=
  { id := 2, texts := [{ content := "y", language := "ja", pronunciation := some "" }],
    tags := [], createdAt := 7, updatedAt := 7, imageId := some "iy",
    imageRemoved := false, isDeleted := false, liked := false, likedAt := none,
    repostOf := none }

def tieState : AppState :=
  { version := 1, posts := [tiePostX, tiePostY], replies := [],
    images := [("ix", "px"), ("iy", "py")], lastId := 2 }

theorem eviction_selects_oldest_post_never_replies_witness :
    tieState.posts[0]? = some tiePostX ∧ tiePostX.createdAt ≤ tiePostY.createdAt ∧
      (0 : Nat) ≤ 1 := by
  have h := (eviction_selects_oldest_post_never_replies tieState (by decide)).1
    0 tiePostX [(1, tiePostY)] (by decide)
  have h2 := h.2.2 1 tiePostY (by decide) (by decide)
  exact ⟨h.1, h2.1, h2.2 (by decide)⟩

/-- C10: the eviction loop terminates, and the number of iterations is bounded
by the initial number of posts carrying a non-null `imageId`: running the loop
body with exactly that much fuel already computes the limit reached by the
(well-founded) `enforceStorageLimit`, whose termination measure is the strict
decrease of that count on every non-exiting iteration. -/
theorem eviction_terminates_within_image_post_count (st : AppState) :
    enforceStorageLimitFuel (st.posts.countP (fun p => p.imageId.isSome)) st =
      enforceStorageLimit st := by
  apply enforceStorageLimitFuel_eq_of_le
  unfold countImaged
  apply List.countP_mono_left
  intro p _ htr
  cases hid : p.imageId with
  | none => simp_all [jsTruthy]
  | some s => simp [hid]

/-- Per-post view of the fields the tags invariant speaks about. -/
def postTagsView (p : Post) : List String × List TextVariant :=
  (p.tags, p.texts)

/-- Per-reply view of the fields the tags invariant speaks about. -/
def replyTagsView (r : Reply) : List String × List TextVariant :=
  (r.tags, r.texts)

theorem persistData_posts_tags_view (st : AppState) :
    (persistData st).posts.map postTagsView = st.posts.map postTagsView := by
  unfold persistData
  exact enforceStorageLimit_posts_map postTagsView (fun p => rfl) st

theorem persistData_replies (st : AppState) :
    (persistData st).replies = st.replies := by
  unfold persistData
  exact enforceStorageLimit_replies st

theorem persistData_posts_id_tags (st : AppState) :
    (persistData st).posts.map (fun p => (p.id, p.tags)) =
      st.posts.map (fun p => (p.id, p.tags)) := by
  unfold persistData
  exact enforceStorageLimit_posts_map (fun p => (p.id, p.tags)) (fun p => rfl) st

/-- C5 (amended): the operations that rewrite an entity's texts through the
form (create post, create reply, edit post, edit reply) store
`tags = extractTags(texts)` for the mutated entity and leave every other
entity's `(tags, texts)` pair unchanged; `deletePost`'s soft delete, by
contrast, clears the texts but does NOT recompute `tags` — every post,
including the soft-deleted one, keeps its previous `tags` value. -/
theorem tags_recomputed_on_form_mutations_only (st : AppState) (blocks : List TextVariant)
    (imageDataUrl : Option String) (removeImage : Bool) (target : Option Post)
    (parentId idxP idxR id : Nat) (freshId : String) (now : Nat) :
    (∀ st1, submitCreate st blocks imageDataUrl removeImage target freshId now = some st1 →
      st1.posts.map postTagsView =
        st.posts.map postTagsView ++
          [(extractTags (trimBlocks blocks), trimBlocks blocks)]) ∧
    (∀ st2, submitReply st parentId blocks imageDataUrl removeImage freshId now = some st2 →
      st2.replies.map replyTagsView =
        st.replies.map replyTagsView ++
          [(extractTags (trimBlocks blocks), trimBlocks blocks)]) ∧
    (∀ st3 targetPost, st.posts[idxP]? = some targetPost →
      submitEditPost st idxP blocks imageDataUrl removeImage freshId now = some st3 →
      st3.posts.map postTagsView =
        (st.posts.map postTagsView).set idxP
          (extractTags (trimBlocks blocks), trimBlocks blocks)) ∧
    (∀ st4 targetReply, st.replies[idxR]? = some targetReply →
      submitEditReply st idxR blocks imageDataUrl removeImage freshId now = some st4 →
      st4.replies.map replyTagsView =
        (st.replies.map replyTagsView).set idxR
          (extractTags (trimBlocks blocks), trimBlocks blocks)) ∧
    ((st.replies.any (fun r => r.postId == id)) = true →
      (deletePost st id).posts.map (fun p => (p.id, p.tags)) =
        st.posts.map (fun p => (p.id, p.tags))) := by
  refine ⟨?_, ?_, ?_, ?_, ?_⟩
  · intro st1 h
    unfold submitCreate at h
    cases hv : hasContent (trimBlocks blocks) with
    | false => simp [hv] at h
    | true =>
      simp only [hv, Bool.not_true, Bool.false_eq_true, if_false, Option.some.injEq] at h
      subst h
      rw [persistData_posts_tags_view]
      simp [postTagsView]
  · intro st2 h
    unfold submitReply at h
    cases hv : hasContent (trimBlocks blocks) with
    | false => simp [hv] at h
    | true =>
      simp only [hv, Bool.not_true, Bool.false_eq_true, if_false, Option.some.injEq] at h
      subst h
      rw [persistData_replies]
      simp [replyTagsView]
  · intro st3 targetPost hget h
    unfold submitEditPost at h
    cases hv : hasContent (trimBlocks blocks) with
    | false => simp [hv] at h
    | true =>
      simp only [hv, Bool.not_true, Bool.false_eq_true, if_false, hget] at h
      cases imageDataUrl with
      | some url =>
        simp only [Option.some.injEq] at h
        subst h
        rw [persistData_posts_tags_view]
        split
        · rw [removeImageIfUnused_posts]
          show ((st.posts.set idxP _).map postTagsView) = _
          rw [List.map_set]
          rfl
        · show ((st.posts.set idxP _).map postTagsView) = _
          rw [List.map_set]
          rfl
      | none =>
        cases removeImage with
        | true =>
          simp only [if_true, Option.some.injEq] at h
          subst h
          rw [persistData_posts_tags_view]
          show ((removeImageIfUnused _ _).posts.set idxP _).map postTagsView = _
          rw [removeImageIfUnused_posts]
          show ((st.posts.set idxP _).set idxP _).map postTagsView = _
          rw [List.set_set, List.map_set]
          rfl
        | false =>
          simp only [Bool.false_eq_true, if_false, Option.some.injEq] at h
          subst h
          rw [persistData_posts_tags_view]
          show ((st.posts.set idxP _).map postTagsView) = _
          rw [List.map_set]
          rfl
  · intro st4 targetReply hget h
    unfold submitEditReply at h
    cases hv : hasContent (trimBlocks blocks) with
    | false => simp [hv] at h
    | true =>
      simp only [hv, Bool.not_true, Bool.false_eq_true, if_false, hget] at h
      cases imageDataUrl with
      | some url =>
        simp only [Option.some.injEq] at h
        subst h
        rw [persistData_replies]
        split
        · rw [removeImageIfUnused_replies]
          show ((st.replies.set idxR _).map replyTagsView) = _
          rw [List.map_set]
          rfl
        · show ((st.replies.set idxR _).map replyTagsView) = _
          rw [List.map_set]
          rfl
      | none =>
        cases removeImage with
        | true =>
          simp only [if_true, Option.some.injEq] at h
          subst h
          rw [persistData_replies]
          show ((removeImageIfUnused _ _).replies.set idxR _).map replyTagsView = _
          rw [removeImageIfUnused_replies]
          show ((st.replies.set idxR _).set idxR _).map replyTagsView = _
          rw [List.set_set, List.map_set]
          rfl
        | false =>
          simp only [Bool.false_eq_true, if_false, Option.some.injEq] at h
          subst h
          rw [persistData_replies]
          show ((st.replies.set idxR _).map replyTagsView) = _
          rw [List.map_set]
          rfl
  · intro hrep
    unfold deletePost
    split
    · rfl
    · next i heq =>
      split
      · rfl
      · next post hget =>
        simp only [hrep, if_true]
        rw [persistData_posts_id_tags]
        show ((st.posts.set i _).map (fun p => (p.id, p.tags))) = _
        rw [List.map_set]
        apply set_getElem?_self
        rw [List.getElem?_map, hget]
        rfl

def demoPostCleared : Post :=
  { demoPost with
    isDeleted := true,
    texts := [{ content := "", language := "ja", pronunciation := none }] }

def demoSoftDeleted : AppState :=
  { demoState with posts := [demoPostCleared] }

/-- C5 (counterexample): soft-deleting the post tagged `x` clears its texts to
a single empty variant but leaves `tags = ["x"]`, while the tags extracted
from the cleared texts are `[]` — the claimed invariant fails on the
soft-deleted post. -/
theorem soft_delete_stale_tags_counterexample :
    (deletePost demoState 1).posts.map Post.tags = [["x"]] ∧
    (deletePost demoState 1).posts.map (fun p => extractTags p.texts) = [[]] ∧
    (deletePost demoState 1).posts.map Post.isDeleted = [true] := by
  have hd : deletePost demoState 1 = persistData demoSoftDeleted := by rfl
  rw [hd]
  unfold persistData
  rw [enforceStorageLimit_fit (by decide)]
  exact ⟨rfl, by decide, rfl⟩

def demoBlocks : List TextVariant :=
  [{ content := " hi #t ", language := "ja", pronunciation := some "" }]

theorem tags_recomputed_on_form_mutations_only_witness :
    ((submitCreate demoState demoBlocks none false none "f" 20).map
        (fun s => s.posts.map postTagsView) =
      some (demoState.posts.map postTagsView ++
        [(extractTags (trimBlocks demoBlocks), trimBlocks demoBlocks)])) ∧
    ((submitReply demoState 1 demoBlocks none false "f" 20).map
        (fun s => s.replies.map replyTagsView) =
      some (demoState.replies.map replyTagsView ++
        [(extractTags (trimBlocks demoBlocks), trimBlocks demoBlocks)])) ∧
    ((submitEditPost demoState 0 demoBlocks none false "f" 20).map
        (fun s => s.posts.map postTagsView) =
      some ((demoState.posts.map postTagsView).set 0
        (extractTags (trimBlocks demoBlocks), trimBlocks demoBlocks))) ∧
    ((submitEditReply demoState 0 demoBlocks none false "f" 20).map
        (fun s => s.replies.map replyTagsView) =
      some ((demoState.replies.map replyTagsView).set 0
        (extractTags (trimBlocks demoBlocks), trimBlocks demoBlocks))) ∧
    ((deletePost demoState 1).posts.map (fun p => (p.id, p.tags)) =
      demoState.posts.map (fun p => (p.id, p.tags))) := by
  refine ⟨?_, ?_, ?_, ?_, ?_⟩
  · cases hs : submitCreate demoState demoBlocks none false none "f" 20 with
    | none =>
      rw [submitCreate_none_iff] at hs
      exact absurd hs (by decide)
    | some st1 =>
      have h := (tags_recomputed_on_form_mutations_only demoState demoBlocks none false none
        1 0 0 1 "f" 20).1 st1 hs
      exact congrArg some h
  · cases hs : submitReply demoState 1 demoBlocks none false "f" 20 with
    | none =>
      rw [submitReply_none_iff] at hs
      exact absurd hs (by decide)
    | some st2 =>
      have h := (tags_recomputed_on_form_mutations_only demoState demoBlocks none false none
        1 0 0 1 "f" 20).2.1 st2 hs
      exact congrArg some h
  · cases hs : submitEditPost demoState 0 demoBlocks none false "f" 20 with
    | none =>
      rw [submitEditPost_none_iff] at hs
      exact absurd hs (by decide)
    | some st3 =>
      have h := (tags_recomputed_on_form_mutations_only demoState demoBlocks none false none
        1 0 0 1 "f" 20).2.2.1 st3 demoPost (by decide) hs
      exact congrArg some h
  · cases hs : submitEditReply demoState 0 demoBlocks none false "f" 20 with
    | none =>
      rw [submitEditReply_none_iff] at hs
      exact absurd hs (by decide)
    | some st4 =>
      have h := (tags_recomputed_on_form_mutations_only demoState demoBlocks none false none
        1 0 0 1 "f" 20).2.2.2.1 st4 demoReply (by decide) hs
      exact congrArg some h
  · exact (tags_recomputed_on_form_mutations_only demoState demoBlocks none false none
      1 0 0 1 "f" 20).2.2.2.2 (by decide)

def hardDeletePost : Post :=
  { id := 1, texts := [{ content := "hi", language := "ja", pronunciation := some "" }],
    tags := [], createdAt := 1, updatedAt := 1, imageId := some "imgD",
    imageRemoved := false, isDeleted := false, liked := false, likedAt := none,
    repostOf := none }

def hardDeleteState : AppState :=
  { version := 1, posts := [hardDeletePost], replies := [],
    images := [("imgD", "PAYLOAD")], lastId := 1 }

def hardDeletedState : AppState :=
  { version := 1, posts := [], replies := [], images := [("imgD", "PAYLOAD")], lastId := 1 }

/-- C7 (code evaluation at the failing input): hard-deleting the only post —
an existing, confirmed post whose image is referenced by no other Post or
Reply — removes the record, yet the payload stays in `images`:
`removeImageIfUnused(post.imageId)` runs at line 704 while the post is still
in the collection, so the `used` check sees the post itself and never deletes
the payload, contradicting the claim's "the image payload is removed". -/
theorem hard_delete_keeps_unreferenced_payload :
    deletePost hardDeleteState 1 = hardDeletedState ∧
    hardDeletedState.images = [("imgD", "PAYLOAD")] ∧
    (∀ p ∈ hardDeletedState.posts, p.imageId ≠ some "imgD") ∧
    (∀ r ∈ hardDeletedState.replies, r.imageId ≠ some "imgD") := by
  refine ⟨?_, rfl, by decide, by decide⟩
  have hd : deletePost hardDeleteState 1 = persistData hardDeletedState := by rfl
  rw [hd]
  unfold persistData
  rw [enforceStorageLimit_fit (by decide)]

/-- The 2 MB payload of Post A's image X in the C1 scenario. -/
def payloadX : String := String.mk (List.replicate (2 * 1024 * 1024) 'a')

/-- The 4 MB payload of Post B's image Y in the C1 scenario. -/
def payloadY : String := String.mk (List.replicate (4 * 1024 * 1024) 'b')

theorem payloadX_length : payloadX.length = 2 * 1024 * 1024 := by
  show (List.replicate (2 * 1024 * 1024) 'a').length = 2 * 1024 * 1024
  exact List.length_replicate _ _

theorem payloadY_length : payloadY.length = 4 * 1024 * 1024 := by
  show (List.replicate (4 * 1024 * 1024) 'b').length = 4 * 1024 * 1024
  exact List.length_replicate _ _

def postA : Post :=
  { id := 1, texts := [{ content := "A", language := "ja", pronunciation := some "" }],
    tags := [], createdAt := 1, updatedAt := 1, imageId := some "imgA",
    imageRemoved := false, isDeleted := false, liked := false, likedAt := none,
    repostOf := none }

def postB : Post :=
  { id := 2, texts := [{ content := "B", language := "ja", pronunciation := some "" }],
    tags := [], createdAt := 2, updatedAt := 2, imageId := some "imgB",
    imageRemoved := false, isDeleted := false, liked := false, likedAt := none,
    repostOf := none }

/-- The C1 scenario state right after persisting Post B: A (older) holds the
2 MB image X, B holds the 4 MB image Y, total over the 5,242,880-byte budget. -/
def scenarioAB : AppState :=
  { version := 1, posts := [postA, postB], replies := [],
    images := [("imgA", payloadX), ("imgB", payloadY)], lastId := 2 }

def scenarioAB1 : AppState :=
  { scenarioAB with
    posts := [{ postA with imageId := none, imageRemoved := true }, postB] }

def scenarioAB2 : AppState :=
  { scenarioAB with
    posts := [{ postA with imageId := none, imageRemoved := true },
              { postB with imageId := none, imageRemoved := true }] }

theorem scenarioAB_over (st : AppState)
    (him : st.images = [("imgA", payloadX), ("imgB", payloadY)]) :
    ¬ serializedLength st ≤ STORAGE_LIMIT := by
  intro hle
  have hb := payload_sum_le_serializedLength st
  rw [him] at hb
  simp only [List.map_cons, List.map_nil, List.sum_cons, List.sum_nil,
    payloadX_length, payloadY_length] at hb
  unfold STORAGE_LIMIT at hle
  omega

theorem scenarioAB_trace : enforceStorageLimit scenarioAB = scenarioAB2 := by
  have h1 := scenarioAB_over scenarioAB rfl
  have hc1 : evictionCandidates scenarioAB = [(0, postA), (1, postB)] := by decide
  rw [enforceStorageLimit_step h1 hc1]
  have he1 : evictImage scenarioAB 0 postA = scenarioAB1 := by
    rw [evictImage_eq (by decide) (by decide)]
    rfl
  rw [he1]
  have h2 := scenarioAB_over scenarioAB1 rfl
  have hc2 : evictionCandidates scenarioAB1 = [(1, postB)] := by decide
  rw [enforceStorageLimit_step h2 hc2]
  have he2 : evictImage scenarioAB1 1 postB = scenarioAB2 := by
    rw [evictImage_eq (by decide) (by decide)]
    rfl
  rw [he2]
  exact enforceStorageLimit_stuck (scenarioAB_over scenarioAB2 rfl) (by decide)

/-- C1 (code evaluation at the claimed scenario): after persisting the state
with Post A (older, 2 MB image X) and Post B (4 MB image Y), eviction does
NOT remove X's payload from `images` — the mapping is unchanged, both
payloads retained — and does NOT leave B's image intact: B is stripped too.
`removeImageIfUnused` runs while each target still references its image, so
no payload is ever freed, the serialized length stays over budget, and the
loop walks through every image-bearing post. -/
theorem eviction_scenario_keeps_payloads_strips_both :
    (enforceStorageLimit scenarioAB).images = [("imgA", payloadX), ("imgB", payloadY)] ∧
    (enforceStorageLimit scenarioAB).posts.map Post.imageId = [none, none] ∧
    (enforceStorageLimit scenarioAB).posts.map Post.imageRemoved = [true, true] := by
  rw [scenarioAB_trace]
  exact ⟨rfl, rfl, rfl⟩

/-- The 6 MB payload used in the C2 orphan scenario. -/
def payloadZ : String := String.mk (List.replicate (6 * 1024 * 1024) 'c')

theorem payloadZ_length : payloadZ.length = 6 * 1024 * 1024 := by
  show (List.replicate (6 * 1024 * 1024) 'c').length = 6 * 1024 * 1024
  exact List.length_replicate _ _

def postC : Post :=
  { id := 1, texts := [{ content := "C", language := "ja", pronunciation := some "" }],
    tags := [], createdAt := 1, updatedAt := 1, imageId := some "imgC",
    imageRemoved := false, isDeleted := false, liked := false, likedAt := none,
    repostOf := none }

def scenarioC : AppState :=
  { version := 1, posts := [postC], replies := [],
    images := [("imgC", payloadZ)], lastId := 1 }

def scenarioC1 : AppState :=
  { scenarioC with posts := [{ postC with imageId := none, imageRemoved := true }] }

theorem scenarioC_over (st : AppState) (him : st.images = [("imgC", payloadZ)]) :
    ¬ serializedLength st ≤ STORAGE_LIMIT := by
  intro hle
  have hb := payload_sum_le_serializedLength st
  rw [him] at hb
  simp only [List.map_cons, List.map_nil, List.sum_cons, List.sum_nil,
    payloadZ_length] at hb
  unfold STORAGE_LIMIT at hle
  omega

theorem scenarioC_trace : enforceStorageLimit scenarioC = scenarioC1 := by
  have h1 := scenarioC_over scenarioC rfl
  have hc1 : evictionCandidates scenarioC = [(0, postC)] := by decide
  rw [enforceStorageLimit_step h1 hc1]
  have he1 : evictImage scenarioC 0 postC = scenarioC1 := by
    rw [evictImage_eq (by decide) (by decide)]
    rfl
  rw [he1]
  exact enforceStorageLimit_stuck (scenarioC_over scenarioC1 rfl) (by decide)

/-- C2 (code evaluation at a failing input): eviction strips the only post's
image, after which no Post or Reply references `imgC`, yet the payload is
still present in `images` after the mutation-plus-persist cycle completes —
an orphan payload is retained, violating the claimed invariant. The strip
step's `removeImageIfUnused` runs before the reference is nulled, so it always
finds the target itself as a referent and never purges. -/
theorem eviction_orphan_payload_retained :
    (enforceStorageLimit scenarioC).images = [("imgC", payloadZ)] ∧
    (∀ p ∈ (enforceStorageLimit scenarioC).posts, p.imageId ≠ some "imgC") ∧
    (∀ r ∈ (enforceStorageLimit scenarioC).replies, r.imageId ≠ some "imgC") := by
  rw [scenarioC_trace]
  exact ⟨rfl, by decide, by decide⟩

theorem getLast?_cons_of_ne_nil {α : Type} {l : List α} (h : l ≠ []) (t : α) :
    (t :: l).getLast? = l.getLast? := by
  cases l with
  | nil => exact absurd rfl h
  | cons a as => exact List.getLast?_cons_cons

theorem foldl_parseStep_tagFilter :
    ∀ (ts : List String) (acc : ParsedQuery),
      (ts.foldl parseStep acc).tagFilter =
        match (ts.filter startsWithHash).getLast? with
        | some t => some (sliceFrom1 t)
        | none => acc.tagFilter := by
  intro ts
  induction ts with
  | nil => intro acc; rfl
  | cons t ts ih =>
    intro acc
    rw [List.foldl_cons, ih]
    by_cases hswh : startsWithHash t
    · rw [List.filter_cons_of_pos hswh]
      cases hfl : ts.filter startsWithHash with
      | nil =>
        simp only [hfl, List.getLast?_singleton]
        unfold parseStep
        rw [if_pos hswh]
        rfl
      | cons a as =>
        rw [@getLast?_cons_of_ne_nil _ (a :: as) (by simp) t]
        generalize hgl : (a :: as).getLast? = o
        cases o with
        | none => simp [List.getLast?_eq_none_iff] at hgl
        | some u => rfl
    · rw [List.filter_cons_of_neg hswh]
      have hstep : (parseStep acc t).tagFilter = acc.tagFilter := by
        unfold parseStep
        rw [if_neg hswh]
      rw [hstep]

theorem foldl_parseStep_textTerms :
    ∀ (ts : List String) (acc : ParsedQuery),
      (ts.foldl parseStep acc).textTerms =
        acc.textTerms ++ ts.filter (fun t => !startsWithHash t) := by
  intro ts
  induction ts with
  | nil => intro acc; simp
  | cons t ts ih =>
    intro acc
    rw [List.foldl_cons, ih]
    by_cases hswh : startsWithHash t
    · rw [List.filter_cons_of_neg (by simp [hswh])]
      unfold parseStep
      rw [if_pos hswh]
    · rw [List.filter_cons_of_pos (by simp [hswh])]
      unfold parseStep
      rw [if_neg hswh]
      simp

theorem parseQuery_tagFilter (q : String) :
    (parseQuery q).tagFilter = lastHashTokenSpec q := by
  unfold parseQuery lastHashTokenSpec
  rw [foldl_parseStep_tagFilter]
  cases ((parseTerms q).filter startsWithHash).getLast? with
  | none => rfl
  | some t => rfl

theorem parseQuery_textTerms (q : String) :
    (parseQuery q).textTerms = (parseTerms q).filter (fun t => !startsWithHash t) := by
  unfold parseQuery
  rw [foldl_parseStep_textTerms]
  rfl

theorem runSearch_mem (q : String) (st : AppState) (p : Post) :
    p ∈ runSearch q st ↔
      p ∈ st.posts ∧ p.isDeleted = false ∧
      (∀ tf, lastHashTokenSpec q = some tf → tf ≠ "" →
        ∃ tag ∈ p.tags, jsToLower tag = jsToLower tf) ∧
      (∀ term ∈ (parseTerms q).filter (fun t => !startsWithHash t),
        ∃ t ∈ p.texts, containsSub (jsToLower t.content) (jsToLower term) = true) := by
  rw [← parseQuery_tagFilter q, ← parseQuery_textTerms q]
  simp only [runSearch]
  rw [(List.perm_insertionSort _ _).mem_iff]
  cases hf : (parseQuery q).tagFilter with
  | none =>
    by_cases he : (parseQuery q).textTerms.isEmpty
    · rw [List.isEmpty_iff.mp he]
      simp [List.mem_filter, Bool.not_eq_true']
    · simp only [he, Bool.false_eq_true, if_false, List.mem_filter, List.all_eq_true,
        List.any_eq_true, List.forall_mem_map, Bool.not_eq_true', beq_iff_eq]
      tauto
  | some tf =>
    by_cases hemp : tf.data.isEmpty
    · have htf0 : tf = "" := string_eq_empty_of_data_nil (by simpa using hemp)
      subst htf0
      by_cases he : (parseQuery q).textTerms.isEmpty
      · rw [List.isEmpty_iff.mp he]
        simp [List.mem_filter, Bool.not_eq_true']
      · simp only [hemp, if_true, he, Bool.false_eq_true, if_false, List.mem_filter,
          List.all_eq_true, List.any_eq_true, List.forall_mem_map, Bool.not_eq_true',
          beq_iff_eq]
        simp
        tauto
    · have htfne : tf ≠ "" := by
        intro h0
        subst h0
        simp at hemp
      by_cases he : (parseQuery q).textTerms.isEmpty
      · rw [List.isEmpty_iff.mp he]
        simp only [hemp, Bool.false_eq_true, if_false, List.mem_filter, List.any_eq_true,
          Bool.not_eq_true', beq_iff_eq]
        simp [htfne]
        tauto
      · simp only [hemp, Bool.false_eq_true, if_false, he, List.mem_filter,
          List.all_eq_true, List.any_eq_true, List.forall_mem_map, Bool.not_eq_true',
          beq_iff_eq]
        simp [htfne]
        tauto

def searchPost1 : Post :=
  { id := 1,
    texts := [{ content := "I ate Sushi yesterday", language := "en-US",
                pronunciation := some "" }],
    tags := ["travel"], createdAt := 5, updatedAt := 5, imageId := none,
    imageRemoved := false, isDeleted := false, liked := false, likedAt := none,
    repostOf := none }

def searchPost2 : Post :=
  { id := 2,
    texts := [{ content := "ramen is great", language := "en-US",
                pronunciation := some "" }],
    tags := ["food"], createdAt := 6, updatedAt := 6, imageId := none,
    imageRemoved := false, isDeleted := false, liked := false, likedAt := none,
    repostOf := none }

def searchState : AppState :=
  { version := 1, posts := [searchPost1, searchPost2], replies := [], images := [],
    lastId := 2 }

/-- C8 (amended): search splits the query on whitespace; the *last* `#`-token
determines the tag filter, and the filter is applied only when its remainder
after `#` is non-empty (a bare `#` last token disables tag filtering, because
`if (tagFilter)` treats the empty string as falsy); all non-`#` tokens must
each occur case-insensitively inside some text variant's content (possibly
different variants); only posts with `isDeleted = false` are returned, in
`createdAt`-descending order. The query `"#travel SUSHI"` (and `"#travel
sushi"`) returns exactly the post tagged `travel` whose text contains
"Sushi". -/
theorem search_filters_and_order :
    (∀ (q : String) (st : AppState),
      ((runSearch q st).Pairwise (fun a b => b.createdAt ≤ a.createdAt)) ∧
      ∀ p, p ∈ runSearch q st ↔
        p ∈ st.posts ∧ p.isDeleted = false ∧
        (∀ tf, lastHashTokenSpec q = some tf → tf ≠ "" →
          ∃ tag ∈ p.tags, jsToLower tag = jsToLower tf) ∧
        (∀ term ∈ (parseTerms q).filter (fun t => !startsWithHash t),
          ∃ t ∈ p.texts, containsSub (jsToLower t.content) (jsToLower term) = true)) ∧
    runSearch "#travel SUSHI" searchState = [searchPost1] ∧
    runSearch "#travel sushi" searchState = [searchPost1] := by
  refine ⟨fun q st => ⟨?_, fun p => runSearch_mem q st p⟩, by decide, by decide⟩
  exact List.sorted_insertionSort byCreatedAtDesc _

/-- C8 (counterexample): on the query `"#"` the claim says the token `"#"` —
the last (and only) token starting with `#` — acts as an exact tag filter, so
the post whose only tag is `"x"` must not be returned; the code instead
computes `tagFilter = ""`, which is falsy, skips tag filtering entirely, and
returns the post. -/
theorem bare_hash_query_counterexample :
    runSearch "#" demoState = [demoPost] ∧
    demoPost.tags = ["x"] ∧
    jsToLower "x" ≠ jsToLower "" := by
  exact ⟨by decide, rfl, by decide⟩

end LangSns
